import Mathlib

/-!
Verification of the behave-parallel runner (behave/runner.py).

This file is a shallow embedding of the execution engine: the scoped
execution `Context` (frame stack, provenance records, masking
diagnostics) and the parallel scheduler (job partitioning into the job
list and index queue, the worker loop's dequeue discipline and result
emission, and the result aggregation that reconstructs feature-level
outcomes from scenario-job statuses).

Modelling conventions: Python dicts are association lists in insertion
order with unique keys; Python exceptions are explicit error values
(`PyError`); mutation is explicit state passing; the warnings module is
modelled by returning the list of emitted warnings.
-/

namespace BehaveRunner

/-- Python exception kinds raised by the modelled operations. -/
inductive PyError where
  | keyError
  | attributeError
  | indexError
deriving DecidableEq

/-- Decidable equality for `Except` results (not provided by core). -/
instance {ε α : Type} [DecidableEq ε] [DecidableEq α] : DecidableEq (Except ε α) := fun a b =>
  match a, b with
  | .ok x, .ok y =>
    if h : x = y then isTrue (by rw [h]) else isFalse (by intro hc; injection hc; exact h (by assumption))
  | .ok _, .error _ => isFalse (by intro hc; exact Except.noConfusion hc)
  | .error _, .ok _ => isFalse (by intro hc; exact Except.noConfusion hc)
  | .error x, .error y =>
    if h : x = y then isTrue (by rw [h]) else isFalse (by intro hc; injection hc; exact h (by assumption))

/-- Actor mode of the context: the class constants `Context.BEHAVE`
('behave') and `Context.USER` ('user'). -/
inductive Mode where
  | behave
  | user
deriving DecidableEq

/-- Masking diagnostics of `Context._emit_warning`, identified by which
message template is emitted (a `ContextMaskWarning`). -/
inductive WarnKind where
  | behaveMasksUser
  | userMasksBehave
  | userMasksUser
deriving DecidableEq

/-- One frame of the context stack (a Python dict), as an association
list in insertion order with unique keys. -/
abbrev Frame (α : Type) := List (String × α)

namespace Frame

variable {α : Type}

/-- Python `frame[attr]` lookup: the entry with the given key. -/
def lookup : Frame α → String → Option α
  | [], _ => none
  | (m, w) :: rest, n => if m = n then some w else lookup rest n

/-- Python `attr in frame`. -/
def containsName (f : Frame α) (n : String) : Bool := (f.lookup n).isSome

/-- Python `frame[attr] = value`: replace in place when the key exists,
append otherwise. -/
def setv : Frame α → String → α → Frame α
  | [], n, v => [(n, v)]
  | (m, w) :: rest, n, v => if m = n then (n, v) :: rest else (m, w) :: setv rest n v

/-- Python `del frame[attr]` for a present key: remove the entry. -/
def delName : Frame α → String → Frame α
  | [], _ => []
  | (m, w) :: rest, n => if m = n then rest else (m, w) :: delName rest n

theorem lookup_setv_self (f : Frame α) (n : String) (v : α) :
    (f.setv n v).lookup n = some v := by
  induction f with
  | nil => simp [setv, lookup]
  | cons p rest ih =>
    obtain ⟨m, w⟩ := p
    by_cases h : m = n
    · subst h; simp [setv, lookup]
    · simp [setv, lookup, h, ih]

theorem lookup_setv_ne (f : Frame α) {k n : String} (v : α) (h : k ≠ n) :
    (f.setv k v).lookup n = f.lookup n := by
  induction f with
  | nil => simp [setv, lookup, h]
  | cons p rest ih =>
    obtain ⟨m, w⟩ := p
    by_cases hm : m = k
    · subst hm; simp [setv, lookup, h]
    · simp [setv, lookup, hm, ih]

end Frame

/-- Python's `attr[0] == '_'` test on an attribute name (attribute names
are Python identifiers, hence non-empty). -/
def isUnderscore (a : String) : Bool :=
  match a.data with
  | [] => false
  | c :: _ => c = '_'

/-- State of class `Context`.  `stack` is `self._stack` (innermost frame
first, the root frame last); `record` holds the keys of `self._record`
(its call-site payload is used only inside warning text); `origin` is
`self._origin` (first-ever-set actor per attribute); `mode` is
`self._mode`; `verbose` is `self._config.verbose`; `idict` models the
part of `self.__dict__` reached by underscore-prefixed attribute names. -/
structure Context (α : Type) where
  stack : List (Frame α)
  record : List String
  origin : Frame Mode
  mode : Mode
  verbose : Bool
  idict : Frame α
deriving DecidableEq

namespace Context

variable {α : Type}

/-- Python `Context.__init__`: one root frame seeded with `failed`,
`config` and `active_outline`; empty record and origin; behave mode. -/
def init (failedv configv outlinev : α) (verbose : Bool) : Context α :=
  { stack := [[("failed", failedv), ("config", configv), ("active_outline", outlinev)]],
    record := [], origin := [], mode := .behave, verbose := verbose, idict := [] }

/-- Python `Context._push`: `self._stack.insert(0, {})`. -/
def push (st : Context α) : Context α := { st with stack := [] :: st.stack }

/-- Python `Context._pop`: `self._stack.pop(0)` (IndexError on an empty
stack). -/
def pop (st : Context α) : Except PyError Unit × Context α :=
  match st.stack with
  | [] => (.error .indexError, st)
  | _ :: rest => (.ok (), { st with stack := rest })

/-- Core of `Context._emit_warning`: which warning (possibly none) one
masking check emits, given the writer's current mode, the masked
attribute's original actor (`self._origin[attr]`) and the verbose flag. -/
def emitWarningKind (mode origin : Mode) (verbose : Bool) : List WarnKind :=
  match mode with
  | .behave => if origin ≠ Mode.behave then [.behaveMasksUser] else []
  | .user =>
    if origin ≠ Mode.user then [.userMasksBehave]
    else if verbose then [.userMasksUser] else []

/-- The masking loop of `Context.__setattr__` over `self._stack[1:]`:
for every other frame holding `attr`, read `self._record[attr]`
(KeyError when absent) and, inside `_emit_warning`, `self._origin[attr]`
(KeyError when absent), collecting the emitted warnings. -/
def maskWarnings (st : Context α) (attr : String) : List (Frame α) → Except PyError (List WarnKind)
  | [] => .ok []
  | f :: rest =>
    if f.containsName attr then
      if attr ∈ st.record then
        match Frame.lookup st.origin attr with
        | some o =>
          match maskWarnings st attr rest with
          | .ok ws => .ok (emitWarningKind st.mode o st.verbose ++ ws)
          | .error e => .error e
        | none => .error .keyError
      else .error .keyError
    else maskWarnings st attr rest

/-- Python `self._record[attr] = stack_frame` (only key presence is
modelled). -/
def recordAdd (r : List String) (a : String) : List String :=
  if a ∈ r then r else r ++ [a]

/-- Python `Context.__setattr__`: names starting with '_' go straight to
`self.__dict__`; otherwise the masking loop runs over the other frames
(and can raise KeyError), the call site is recorded, the value is
written into the innermost frame `self._stack[0]` (IndexError when the
stack is empty), and the first-ever-set actor is registered in
`self._origin`.  Returns the list of emitted warnings. -/
def setattr (st : Context α) (attr : String) (v : α) :
    Except PyError (List WarnKind) × Context α :=
  if isUnderscore attr then
    (.ok [], { st with idict := st.idict.setv attr v })
  else
    match maskWarnings st attr st.stack.tail with
    | .error e => (.error e, st)
    | .ok ws =>
      match st.stack with
      | [] => (.error .indexError, { st with record := recordAdd st.record attr })
      | f :: rest =>
        (.ok ws,
          { st with
            record := recordAdd st.record attr,
            stack := f.setv attr v :: rest,
            origin := if st.origin.containsName attr then st.origin
                      else st.origin.setv attr st.mode })

/-- Innermost-to-outermost search of `Context.__getattr__`: the first
frame holding `attr` supplies the value. -/
def stackLookup : List (Frame α) → String → Option α
  | [], _ => none
  | f :: rest, n => if f.containsName n then f.lookup n else stackLookup rest n

/-- Python `Context.__getattr__`: names starting with '_' come from
`self.__dict__` (KeyError when absent); otherwise the frames are
searched innermost to outermost and AttributeError is raised when no
frame holds the name. -/
def getattr (st : Context α) (attr : String) : Except PyError α :=
  if isUnderscore attr then
    match st.idict.lookup attr with
    | some v => .ok v
    | none => .error .keyError
  else
    match stackLookup st.stack attr with
    | some v => .ok v
    | none => .error .attributeError

/-- Python `Context.__delattr__`: only the innermost frame is consulted.
When the name is present there, the frame entry is removed and then the
`_record` entry is removed (KeyError when `_record` lacks it — the frame
entry is already gone at that point); otherwise AttributeError. -/
def delattr (st : Context α) (attr : String) : Except PyError Unit × Context α :=
  match st.stack with
  | [] => (.error .indexError, st)
  | f :: rest =>
    if f.containsName attr then
      if attr ∈ st.record then
        (.ok (), { st with stack := f.delName attr :: rest, record := st.record.erase attr })
      else
        (.error .keyError, { st with stack := f.delName attr :: rest })
    else (.error .attributeError, st)

/-- Python `Context.__contains__`. -/
def containsAttr (st : Context α) (attr : String) : Bool :=
  if isUnderscore attr then st.idict.containsName attr
  else st.stack.any (fun f => f.containsName attr)

/-- Python `Context.user_mode`: the generator-based context manager sets
the mode to user, yields, and sets it back to behave after the yield.
There is no try/finally around the yield, so when the block raises the
statement after the yield never runs and the mode is left at user while
the error propagates. -/
def userMode (st : Context α) (block : Context α → Option String × Context α) :
    Option String × Context α :=
  match block { st with mode := .user } with
  | (none, st2) => (none, { st2 with mode := .behave })
  | (some e, st2) => (some e, st2)

end Context

/-- One observable operation on the context, used to state the scope
discipline properties over arbitrary interleavings. -/
inductive Op (α : Type) where
  | push
  | pop
  | setA (n : String) (v : α)
  | delA (n : String)
  | getA (n : String)
deriving DecidableEq

variable {α : Type}

/-- Applying one operation to the context state.  A failing operation
leaves behind exactly the state the Python code has mutated up to the
raise (`__getattr__` never mutates). -/
def applyOp (st : Context α) : Op α → Context α
  | .push => st.push
  | .pop => (st.pop).2
  | .setA n v => (st.setattr n v).2
  | .delA n => (st.delattr n).2
  | .getA _ => st

/-- Running a sequence of operations. -/
def runOps : Context α → List (Op α) → Context α
  | st, [] => st
  | st, op :: rest => runOps (applyOp st op) rest

/-- Correct pairing relative to a current scope depth `d`: every pop
matches a still-open push, and every set/delete happens inside at least
one pushed scope. -/
def scopedOps : Nat → List (Op α) → Bool
  | _, [] => true
  | d, .push :: r => scopedOps (d + 1) r
  | d, .pop :: r => decide (0 < d) && scopedOps (d - 1) r
  | d, .setA _ _ :: r => decide (0 < d) && scopedOps d r
  | d, .delA _ :: r => decide (0 < d) && scopedOps d r
  | d, .getA _ :: r => scopedOps d r

/-- The scope depth left behind by a sequence of operations. -/
def finalDepth : Nat → List (Op α) → Nat
  | d, [] => d
  | d, .push :: r => finalDepth (d + 1) r
  | d, .pop :: r => finalDepth (d - 1) r
  | d, .setA _ _ :: r => finalDepth d r
  | d, .delA _ :: r => finalDepth d r
  | d, .getA _ :: r => finalDepth d r

/-- Specification-side restatement of the get contract, following the
spec's words: search frames innermost to outermost and return the first
match (the value held by the first frame that contains the name). -/
def specResolve (stack : List (Frame α)) (n : String) : Option α :=
  (stack.find? (fun f => f.containsName n)).bind (fun f => f.lookup n)

/-- Packaging of an optional resolution as `__getattr__` reports it:
a found value, or AttributeError. -/
def resolveExcept (o : Option α) : Except PyError α :=
  match o with
  | some v => Except.ok v
  | none => Except.error PyError.attributeError

theorem stackLookup_eq_specResolve (stack : List (Frame α)) (n : String) :
    Context.stackLookup stack n = specResolve stack n := by
  induction stack with
  | nil => rfl
  | cons f rest ih =>
    by_cases h : f.containsName n = true
    · simp [Context.stackLookup, specResolve, List.find?, h]
    · simp only [Bool.not_eq_true] at h
      simp [Context.stackLookup, specResolve, List.find?, h, ih]

theorem setattr_stack_shape (st : Context α) (n : String) (v : α) :
    (st.setattr n v).2.stack = st.stack ∨
    ∃ f rest, st.stack = f :: rest ∧ (st.setattr n v).2.stack = f.setv n v :: rest := by
  unfold Context.setattr
  by_cases hu : isUnderscore n = true
  · simp [hu]
  · simp only [Bool.not_eq_true] at hu
    simp only [hu, Bool.false_eq_true, if_false]
    cases hm : st.maskWarnings n st.stack.tail with
    | error e => simp
    | ok ws =>
      cases hs : st.stack with
      | nil => simp [hs]
      | cons f rest => right; exact ⟨f, rest, rfl, rfl⟩

theorem delattr_stack_shape (st : Context α) (n : String) :
    (st.delattr n).2.stack = st.stack ∨
    ∃ f rest, st.stack = f :: rest ∧ (st.delattr n).2.stack = f.delName n :: rest := by
  cases hs : st.stack with
  | nil => left; simp [Context.delattr, hs]
  | cons f rest =>
    by_cases hc : f.containsName n = true
    · by_cases hr : n ∈ st.record
      · right; exact ⟨f, rest, rfl, by simp [Context.delattr, hs, hc, hr]⟩
      · right; exact ⟨f, rest, rfl, by simp [Context.delattr, hs, hc, hr]⟩
    · left; simp [Context.delattr, hs, hc]

theorem runOps_stack_suffix (ops : List (Op α)) :
    ∀ (d : Nat) (st : Context α) (front base : List (Frame α)),
      scopedOps d ops = true → st.stack = front ++ base → front.length = d →
      ∃ ext : List (Frame α), (runOps st ops).stack = ext ++ base ∧
        ext.length = finalDepth d ops := by
  induction ops with
  | nil =>
    intro d st front base _ hstack hlen
    exact ⟨front, hstack, hlen⟩
  | cons op rest ih =>
    intro d st front base hops hstack hlen
    cases op with
    | push =>
      simp only [scopedOps] at hops
      exact ih (d + 1) (st.push) ([] :: front) base hops (by simp [Context.push, hstack]) (by simp [hlen])
    | pop =>
      simp only [scopedOps, Bool.and_eq_true, decide_eq_true_eq] at hops
      obtain ⟨hd, hops⟩ := hops
      cases front with
      | nil => simp at hlen; omega
      | cons f front' =>
        have hpop : ((st.pop).2).stack = front' ++ base := by
          simp [Context.pop, hstack]
        exact ih (d - 1) ((st.pop).2) front' base hops hpop (by simp at hlen; omega)
    | setA n v =>
      simp only [scopedOps, Bool.and_eq_true, decide_eq_true_eq] at hops
      obtain ⟨hd, hops⟩ := hops
      cases front with
      | nil => simp at hlen; omega
      | cons f front' =>
        rcases setattr_stack_shape st n v with hsame | ⟨f₀, rest₀, hst, hres⟩
        · exact ih d _ (f :: front') base hops (by rw [show applyOp st (Op.setA n v) = (st.setattr n v).2 from rfl, hsame, hstack]) hlen
        · rw [hstack] at hst
          simp only [List.cons_append, List.cons.injEq] at hst
          obtain ⟨hf, hrest⟩ := hst
          refine ih d _ (f₀.setv n v :: front') base hops ?_ (by simp only [List.length_cons] at hlen ⊢; exact hlen)
          rw [show applyOp st (Op.setA n v) = (st.setattr n v).2 from rfl, hres, ← hrest]
          rfl
    | delA n =>
      simp only [scopedOps, Bool.and_eq_true, decide_eq_true_eq] at hops
      obtain ⟨hd, hops⟩ := hops
      cases front with
      | nil => simp at hlen; omega
      | cons f front' =>
        rcases delattr_stack_shape st n with hsame | ⟨f₀, rest₀, hst, hres⟩
        · exact ih d _ (f :: front') base hops (by rw [show applyOp st (Op.delA n) = (st.delattr n).2 from rfl, hsame, hstack]) hlen
        · rw [hstack] at hst
          simp only [List.cons_append, List.cons.injEq] at hst
          obtain ⟨hf, hrest⟩ := hst
          refine ih d _ (f₀.delName n :: front') base hops ?_ (by simp only [List.length_cons] at hlen ⊢; exact hlen)
          rw [show applyOp st (Op.delA n) = (st.delattr n).2 from rfl, hres, ← hrest]
          rfl
    | getA n =>
      simp only [scopedOps] at hops
      exact ih d st front base hops hstack hlen

theorem stackLookup_isSome_iff (stack : List (Frame α)) (n : String) :
    (Context.stackLookup stack n).isSome = stack.any (fun f => f.containsName n) := by
  induction stack with
  | nil => rfl
  | cons f rest ih =>
    by_cases hc : f.containsName n = true
    · simp only [Context.stackLookup, hc, if_true, List.any_cons, Bool.true_or]
      exact hc
    · simp only [Bool.not_eq_true] at hc
      simp [Context.stackLookup, List.any_cons, hc, ih]

/-- C8: for every correctly paired sequence of push/pop operations with
arbitrary set/get/delete interleaved inside the pushed scopes, the
initial frames — in particular the root frame, which stays the last
frame with unchanged contents — survive untouched below the pushed
scopes, and `__getattr__` resolves any non-internal name to the value
held by the innermost surviving frame containing it, where within one
frame the held value is the one stored by the last write. -/
theorem C8_scope_stack_invariant (ops : List (Op α)) (st : Context α)
    (hops : scopedOps 0 ops = true) (hne : st.stack ≠ []) :
    (∃ ext, (runOps st ops).stack = ext ++ st.stack) ∧
    (runOps st ops).stack.getLast? = st.stack.getLast? ∧
    (∀ n, isUnderscore n = false →
      (runOps st ops).getattr n =
        resolveExcept (specResolve (runOps st ops).stack n)) ∧
    (∀ (f : Frame α) (n : String) (v : α), (f.setv n v).lookup n = some v) := by
  obtain ⟨ext, hstk, hlen⟩ := runOps_stack_suffix ops 0 st [] st.stack hops (by simp) rfl
  refine ⟨⟨ext, hstk⟩, ?_, ?_, ?_⟩
  · rw [hstk]
    exact List.getLast?_append_of_ne_nil ext hne
  · intro n hn
    simp [Context.getattr, hn, stackLookup_eq_specResolve, resolveExcept]
  · intro f n v
    exact Frame.lookup_setv_self f n v

/-- Example operation sequence (balanced scopes, mutations inside the
scopes) and example context used to instantiate the scope invariants. -/
def exampleOps : List (Op Nat) :=
  [Op.push, Op.setA "x" 1, Op.getA "x", Op.push, Op.setA "x" 2, Op.pop, Op.delA "x", Op.pop]

/-- Example initial context over Nat payloads. -/
def exampleCtx : Context Nat := Context.init 0 1 2 false

theorem C8_scope_stack_invariant_witness :
    scopedOps 0 exampleOps = true ∧ exampleCtx.stack ≠ [] ∧
    ((∃ ext, (runOps exampleCtx exampleOps).stack = ext ++ exampleCtx.stack) ∧
     (runOps exampleCtx exampleOps).stack.getLast? = exampleCtx.stack.getLast? ∧
     (∀ n, isUnderscore n = false →
       (runOps exampleCtx exampleOps).getattr n =
         resolveExcept (specResolve (runOps exampleCtx exampleOps).stack n)) ∧
     (∀ (f : Frame Nat) (n : String) (v : Nat), (f.setv n v).lookup n = some v)) :=
  ⟨by decide, by decide, C8_scope_stack_invariant exampleOps exampleCtx (by decide) (by decide)⟩

/-- C9: `__getattr__` searches the frames innermost to outermost and
returns the first match, raising AttributeError otherwise; and
`__contains__` holds exactly when `__getattr__` resolves without error. -/
theorem C9_get_contains_contract (st : Context α) (attr : String)
    (h : isUnderscore attr = false) :
    st.getattr attr = resolveExcept (specResolve st.stack attr) ∧
    (st.containsAttr attr = true ↔ ∃ v, st.getattr attr = Except.ok v) := by
  constructor
  · simp [Context.getattr, h, stackLookup_eq_specResolve, resolveExcept]
  · simp only [Context.containsAttr, Context.getattr, h, Bool.false_eq_true, if_false]
    rw [← stackLookup_isSome_iff]
    cases hs : Context.stackLookup st.stack attr <;> simp [hs]

theorem C9_get_contains_contract_witness :
    isUnderscore "failed" = false ∧
    ((Context.init (0 : Nat) 1 2 false).getattr "failed" =
      resolveExcept (specResolve (Context.init (0 : Nat) 1 2 false).stack "failed") ∧
     ((Context.init (0 : Nat) 1 2 false).containsAttr "failed" = true ↔
       ∃ v, (Context.init (0 : Nat) 1 2 false).getattr "failed" = Except.ok v)) :=
  ⟨by decide, C9_get_contains_contract _ "failed" (by decide)⟩

/-- C10: `__delattr__` removes the name only from the innermost frame and
raises AttributeError when the innermost frame lacks it (even when an
outer frame holds it); `__setattr__` never touches the outer frames, so
after the innermost frame is popped the outer binding is visible again. -/
theorem C10_scope_local_deletion (st : Context α) (attr : String) (v : α)
    (hu : isUnderscore attr = false) :
    (∀ f rest, st.stack = f :: rest → f.containsName attr = false →
      st.delattr attr = (Except.error PyError.attributeError, st)) ∧
    (∀ f rest, st.stack = f :: rest → f.containsName attr = true → attr ∈ st.record →
      st.delattr attr =
        (Except.ok (), { st with stack := f.delName attr :: rest,
                                 record := st.record.erase attr })) ∧
    ((st.setattr attr v).2.stack.tail = st.stack.tail) ∧
    (∀ ws st', st.setattr attr v = (Except.ok ws, st') →
      ((st'.pop).2).stack = st.stack.tail ∧
      ((st'.pop).2).getattr attr =
        resolveExcept (specResolve st.stack.tail attr)) := by
  refine ⟨?_, ?_, ?_, ?_⟩
  · intro f rest hs hc
    simp [Context.delattr, hs, hc]
  · intro f rest hs hc hr
    simp [Context.delattr, hs, hc, hr]
  · rcases setattr_stack_shape st attr v with hsame | ⟨f, rest, hst, hres⟩
    · rw [hsame]
    · rw [hres, hst]
      rfl
  · intro ws st' hset
    cases hs : st.stack with
    | nil =>
      have hval : st.setattr attr v =
          (.error .indexError, { st with record := Context.recordAdd st.record attr }) := by
        simp [Context.setattr, Context.maskWarnings, hu, hs]
      rw [hval] at hset
      simp at hset
    | cons f rest =>
      cases hm : st.maskWarnings attr rest with
      | error e =>
        have hval : st.setattr attr v = (.error e, st) := by
          simp [Context.setattr, hu, hs, hm]
        rw [hval] at hset
        simp at hset
      | ok ws₀ =>
        have hval : st.setattr attr v =
            (.ok ws₀,
              { st with record := Context.recordAdd st.record attr,
                        stack := f.setv attr v :: rest,
                        origin := if st.origin.containsName attr then st.origin
                                  else st.origin.setv attr st.mode }) := by
          simp [Context.setattr, hu, hs, hm]
        rw [hval] at hset
        simp only [Prod.mk.injEq] at hset
        obtain ⟨-, hst'⟩ := hset
        subst hst'
        constructor
        · simp [Context.pop, hs]
        · simp [Context.pop, Context.getattr, hu, stackLookup_eq_specResolve, resolveExcept, hs]

theorem C10_scope_local_deletion_witness :
    isUnderscore "x" = false ∧
    (let st : Context Nat := ((Context.init (0 : Nat) 1 2 false).setattr "x" 5).2.push
     (∀ f rest, st.stack = f :: rest → f.containsName "x" = false →
       st.delattr "x" = (Except.error PyError.attributeError, st)) ∧
     (∀ f rest, st.stack = f :: rest → f.containsName "x" = true → "x" ∈ st.record →
       st.delattr "x" =
         (Except.ok (), { st with stack := f.delName "x" :: rest,
                                  record := st.record.erase "x" })) ∧
     ((st.setattr "x" 7).2.stack.tail = st.stack.tail) ∧
     (∀ ws st', st.setattr "x" 7 = (Except.ok ws, st') →
       ((st'.pop).2).stack = st.stack.tail ∧
       ((st'.pop).2).getattr "x" =
         resolveExcept (specResolve st.stack.tail "x"))) :=
  ⟨by decide, C10_scope_local_deletion _ "x" 7 (by decide)⟩

/-- Number of other frames that currently hold the name (the number of
iterations of the `__setattr__` masking loop that fire). -/
def countMasked (frames : List (Frame α)) (attr : String) : Nat :=
  (frames.filter (fun f => f.containsName attr)).length

theorem maskWarnings_ok (st : Context α) (attr : String) (o : Mode)
    (hrec : attr ∈ st.record) (horig : Frame.lookup st.origin attr = some o) :
    ∀ frames, st.maskWarnings attr frames =
      .ok (List.flatten (List.replicate (countMasked frames attr)
        (Context.emitWarningKind st.mode o st.verbose))) := by
  intro frames
  induction frames with
  | nil => simp [Context.maskWarnings, countMasked]
  | cons f rest ih =>
    by_cases hc : f.containsName attr = true
    · simp [Context.maskWarnings, hc, hrec, horig, ih, countMasked, List.filter_cons,
        List.replicate_succ]
    · simp only [Bool.not_eq_true] at hc
      simp [Context.maskWarnings, hc, ih, countMasked, List.filter_cons]

/-- C5 (amended): on a set of a name, the masking diagnostic of the
matrix row (writer mode × original actor of the masked value) is emitted
once per *other frame* currently holding the name — hence exactly once
precisely when one other frame holds it; the matrix rows are:
framework over framework none, framework over user one warning, user
over framework one warning, user over user one warning iff verbose. -/
theorem C5_masking_matrix (st : Context α) (attr : String) (v : α) (o : Mode)
    (hu : isUnderscore attr = false) (hne : st.stack ≠ [])
    (hrec : attr ∈ st.record) (horig : Frame.lookup st.origin attr = some o) :
    (st.setattr attr v).1 =
      Except.ok (List.flatten (List.replicate (countMasked st.stack.tail attr)
        (Context.emitWarningKind st.mode o st.verbose))) ∧
    Context.emitWarningKind .behave .behave st.verbose = [] ∧
    Context.emitWarningKind .behave .user st.verbose = [.behaveMasksUser] ∧
    Context.emitWarningKind .user .behave st.verbose = [.userMasksBehave] ∧
    Context.emitWarningKind .user .user true = [.userMasksUser] ∧
    Context.emitWarningKind .user .user false = [] := by
  refine ⟨?_, rfl, rfl, rfl, rfl, rfl⟩
  cases hs : st.stack with
  | nil => exact absurd hs hne
  | cons f rest =>
    have hm := maskWarnings_ok st attr o hrec horig rest
    simp [Context.setattr, hu, hs, hm]

/-- State reached (over Nat payloads) by: enter user mode, set `x` at the
root, push a scope, set `x` again, push another scope, return to behave
mode.  The name `x` is now user-set and held by two other frames. -/
def doubleMaskCtx : Context Nat :=
  { ((({ Context.init 0 1 2 false with mode := Mode.user }).setattr "x" 1).2.push.setattr
      "x" 2).2.push with mode := Mode.behave }

/-- C5 counterexample: writing as framework over the user-set `x` from a
state where `x` lives in two other frames emits two `ContextMaskWarning`
diagnostics, not exactly one — `__setattr__` warns once per other frame
holding the name. -/
theorem C5_masking_matrix_counterexample :
    doubleMaskCtx.mode = Mode.behave ∧
    Frame.lookup doubleMaskCtx.origin "x" = some Mode.user ∧
    (∃ f ∈ doubleMaskCtx.stack.tail, f.containsName "x" = true) ∧
    (doubleMaskCtx.setattr "x" 3).1 =
      Except.ok [WarnKind.behaveMasksUser, WarnKind.behaveMasksUser] ∧
    (Except.ok [WarnKind.behaveMasksUser, WarnKind.behaveMasksUser] :
        Except PyError (List WarnKind)) ≠
      Except.ok [WarnKind.behaveMasksUser] := by
  refine ⟨by decide, by decide, ?_, by decide, by decide⟩
  exact ⟨[("x", 2)], by decide, by decide⟩

/-- State with `x` user-set at the root and one pushed scope, writer in
behave mode: exactly one other frame holds `x`. -/
def singleMaskCtx : Context Nat :=
  { (({ Context.init 0 1 2 false with mode := Mode.user }).setattr "x" 1).2.push with
      mode := Mode.behave }

theorem C5_masking_matrix_witness :
    isUnderscore "x" = false ∧ singleMaskCtx.stack ≠ [] ∧ "x" ∈ singleMaskCtx.record ∧
    Frame.lookup singleMaskCtx.origin "x" = some Mode.user ∧
    countMasked singleMaskCtx.stack.tail "x" = 1 ∧
    ((singleMaskCtx.setattr "x" 3).1 =
      Except.ok (List.flatten (List.replicate (countMasked singleMaskCtx.stack.tail "x")
        (Context.emitWarningKind singleMaskCtx.mode Mode.user singleMaskCtx.verbose))) ∧
     Context.emitWarningKind .behave .behave singleMaskCtx.verbose = [] ∧
     Context.emitWarningKind .behave .user singleMaskCtx.verbose = [.behaveMasksUser] ∧
     Context.emitWarningKind .user .behave singleMaskCtx.verbose = [.userMasksBehave] ∧
     Context.emitWarningKind .user .user true = [.userMasksUser] ∧
     Context.emitWarningKind .user .user false = []) :=
  ⟨by decide, by decide, by decide, by decide, by decide,
    C5_masking_matrix singleMaskCtx "x" 3 Mode.user (by decide) (by decide) (by decide) (by decide)⟩

/-- State reached (over Nat payloads) by: set `x`, push a scope, set `x`
again in the inner scope, delete `x` there.  The deletion removed the
`_record` entry while `x` is still held by the root frame. -/
def staleRecordCtx : Context Nat :=
  ((((Context.init 0 1 2 false).setattr "x" 1).2.push.setattr "x" 2).2.delattr "x").2

/-- C6: `__setattr__` is not total — from the reachable state
`staleRecordCtx` (set x; push; set x; del x) the next `ctx.x = 3` raises
KeyError out of the masking lookup `self._record[attr]` and the write
never happens, although the masking diagnostic is documented as
non-fatal. -/
theorem C6_set_raises_keyerror :
    staleRecordCtx.containsAttr "x" = true ∧
    (staleRecordCtx.setattr "x" 3).1 = Except.error PyError.keyError ∧
    (staleRecordCtx.setattr "x" 3).2 = staleRecordCtx := by
  decide

/-- C7: `user_mode` runs the block in user mode but restores behave mode
only on the normal path; when the block raises, the mode is left at
user because the statement after the yield never executes. -/
theorem C7_user_mode_not_restored_on_error :
    ((Context.init (0 : Nat) 1 2 false).userMode (fun c => (none, c))).2.mode = Mode.behave ∧
    ((Context.init (0 : Nat) 1 2 false).userMode
      (fun c => (some "RuntimeError", c))).2.mode = Mode.user ∧
    Mode.user ≠ Mode.behave := by
  decide

/-- One step of a scenario, as the report and tally code reads it. -/
structure StepInfo where
  name : String
  status : String
deriving DecidableEq

/-- A parsed artifact as the scheduler reads it: a feature, a plain
scenario, a scenario outline (whose `scenarios` hold the expanded
per-example sub-scenarios) or such a sub-scenario.  `jtype` is the
artifact's `type` attribute; `featureName` models the back-reference
`job.feature.name` used for scenario jobs; `durationStr` is
`str(job.duration)`. -/
inductive JobNode where
  | mk (jtype name filename featureName status durationStr : String)
       (tags : List String) (steps : List StepInfo) (scenarios : List JobNode)

/-- Accessor for the `type` attribute. -/
def JobNode.jtype : JobNode → String
  | .mk t _ _ _ _ _ _ _ _ => t

/-- Accessor for the `name` attribute. -/
def JobNode.name : JobNode → String
  | .mk _ n _ _ _ _ _ _ _ => n

/-- Accessor for the `filename` attribute. -/
def JobNode.filename : JobNode → String
  | .mk _ _ fn _ _ _ _ _ _ => fn

/-- Accessor for `feature.name` of a scenario job. -/
def JobNode.featureName : JobNode → String
  | .mk _ _ _ fy _ _ _ _ _ => fy

/-- Accessor for the `status` attribute. -/
def JobNode.status : JobNode → String
  | .mk _ _ _ _ s _ _ _ _ => s

/-- Accessor for `str(duration)`. -/
def JobNode.durationStr : JobNode → String
  | .mk _ _ _ _ _ d _ _ _ => d

/-- Accessor for the `tags` attribute. -/
def JobNode.tags : JobNode → List String
  | .mk _ _ _ _ _ _ tg _ _ => tg

/-- Accessor for the `steps` attribute. -/
def JobNode.steps : JobNode → List StepInfo
  | .mk _ _ _ _ _ _ _ st _ => st

/-- Accessor for the `scenarios` attribute. -/
def JobNode.scenarios : JobNode → List JobNode
  | .mk _ _ _ _ _ _ _ _ sc => sc

/-- State of the partition loop of `Runner.run_multiproc`: `joblist`,
the indices put on `joblist_index_queue` (in order), and the two
counters `feature_count` and `scenario_count`. -/
structure PartitionState where
  joblist : List JobNode
  idxQueue : List Nat
  feature_count : Nat
  scenario_count : Nat

/-- Appending one whole-feature job: `self.joblist.append(feature);
self.joblist_index_queue.put(feature_count+scenario_count);
feature_count += 1`. -/
def putFeatureJob (st : PartitionState) (f : JobNode) : PartitionState :=
  { joblist := st.joblist ++ [f],
    idxQueue := st.idxQueue ++ [st.feature_count + st.scenario_count],
    feature_count := st.feature_count + 1,
    scenario_count := st.scenario_count }

/-- Appending one scenario (or expanded sub-scenario) job: append, put
`feature_count+scenario_count`, then `scenario_count += 1`. -/
def putScenarioJob (st : PartitionState) (s : JobNode) : PartitionState :=
  { joblist := st.joblist ++ [s],
    idxQueue := st.idxQueue ++ [st.feature_count + st.scenario_count],
    feature_count := st.feature_count,
    scenario_count := st.scenario_count + 1 }

/-- The per-scenario branch: a node whose `type` is 'scenario' is one
job; any other type (a scenario outline) contributes one job per
expanded sub-scenario. -/
def enqueueScenario (st : PartitionState) (s : JobNode) : PartitionState :=
  if s.jtype = "scenario" then putScenarioJob st s
  else s.scenarios.foldl putScenarioJob st

/-- The per-feature branch: one whole-feature job when the granularity
is 'feature' or the feature is tagged 'serial', otherwise the scenario
branch for each scenario of the feature. -/
def enqueueFeature (parallel_element : String) (st : PartitionState) (f : JobNode) :
    PartitionState :=
  if parallel_element = "feature" ∨ "serial" ∈ f.tags then putFeatureJob st f
  else f.scenarios.foldl enqueueScenario st

/-- The partition loop of `Runner.run_multiproc` over all parsed
features, starting from empty job list, empty queue and zero counters. -/
def partitionJobs (parallel_element : String) (features : List JobNode) : PartitionState :=
  features.foldl (enqueueFeature parallel_element) ⟨[], [], 0, 0⟩

/-- Specification-side expected jobs contributed by one scenario entry:
a plain scenario is exactly one job, a scenario outline contributes its
expanded sub-scenarios, one job each, none aggregated. -/
def expectedScenarioJobs (s : JobNode) : List JobNode :=
  if s.jtype = "scenario" then [s] else s.scenarios

/-- Specification-side expected jobs contributed by one feature: one
whole-feature job under feature granularity or a 'serial' tag, else the
per-scenario jobs in order. -/
def expectedFeatureJobs (parallel_element : String) (f : JobNode) : List JobNode :=
  if parallel_element = "feature" ∨ "serial" ∈ f.tags then [f]
  else f.scenarios.flatMap expectedScenarioJobs

/-- Invariant of the partition loop: the queue holds exactly the
positions `0..len-1` of the job list, and the two counters sum to the
job-list length. -/
def partInv (st : PartitionState) : Prop :=
  st.idxQueue = List.range st.joblist.length ∧
  st.feature_count + st.scenario_count = st.joblist.length

theorem putFeatureJob_spec (st : PartitionState) (f : JobNode) (h : partInv st) :
    partInv (putFeatureJob st f) ∧ (putFeatureJob st f).joblist = st.joblist ++ [f] := by
  obtain ⟨hq, hc⟩ := h
  refine ⟨⟨?_, ?_⟩, rfl⟩
  · simp [putFeatureJob, hq, hc, List.range_succ]
  · simp [putFeatureJob]
    omega

theorem putScenarioJob_spec (st : PartitionState) (s : JobNode) (h : partInv st) :
    partInv (putScenarioJob st s) ∧ (putScenarioJob st s).joblist = st.joblist ++ [s] := by
  obtain ⟨hq, hc⟩ := h
  refine ⟨⟨?_, ?_⟩, rfl⟩
  · simp [putScenarioJob, hq, hc, List.range_succ]
  · simp [putScenarioJob]
    omega

theorem foldl_putScenarioJob_spec (l : List JobNode) :
    ∀ st, partInv st →
      partInv (l.foldl putScenarioJob st) ∧
      (l.foldl putScenarioJob st).joblist = st.joblist ++ l := by
  induction l with
  | nil =>
    intro st h
    exact ⟨h, by simp⟩
  | cons s rest ih =>
    intro st h
    obtain ⟨h1, h2⟩ := putScenarioJob_spec st s h
    obtain ⟨h3, h4⟩ := ih _ h1
    refine ⟨h3, ?_⟩
    rw [List.foldl_cons, h4, h2]
    simp

theorem enqueueScenario_spec (st : PartitionState) (s : JobNode) (h : partInv st) :
    partInv (enqueueScenario st s) ∧
    (enqueueScenario st s).joblist = st.joblist ++ expectedScenarioJobs s := by
  by_cases ht : s.jtype = "scenario"
  · simpa [enqueueScenario, expectedScenarioJobs, ht] using putScenarioJob_spec st s h
  · simpa [enqueueScenario, expectedScenarioJobs, ht] using
      foldl_putScenarioJob_spec s.scenarios st h

theorem foldl_enqueueScenario_spec (l : List JobNode) :
    ∀ st, partInv st →
      partInv (l.foldl enqueueScenario st) ∧
      (l.foldl enqueueScenario st).joblist = st.joblist ++ l.flatMap expectedScenarioJobs := by
  induction l with
  | nil =>
    intro st h
    exact ⟨h, by simp⟩
  | cons s rest ih =>
    intro st h
    obtain ⟨h1, h2⟩ := enqueueScenario_spec st s h
    obtain ⟨h3, h4⟩ := ih _ h1
    refine ⟨h3, ?_⟩
    rw [List.foldl_cons, h4, h2, List.flatMap_cons, List.append_assoc]

theorem enqueueFeature_spec (parallel_element : String) (st : PartitionState) (f : JobNode)
    (h : partInv st) :
    partInv (enqueueFeature parallel_element st f) ∧
    (enqueueFeature parallel_element st f).joblist =
      st.joblist ++ expectedFeatureJobs parallel_element f := by
  by_cases hc : parallel_element = "feature" ∨ "serial" ∈ f.tags
  · simpa [enqueueFeature, expectedFeatureJobs, hc] using putFeatureJob_spec st f h
  · simpa [enqueueFeature, expectedFeatureJobs, hc] using
      foldl_enqueueScenario_spec f.scenarios st h

theorem foldl_enqueueFeature_spec (parallel_element : String) (l : List JobNode) :
    ∀ st, partInv st →
      partInv (l.foldl (enqueueFeature parallel_element) st) ∧
      (l.foldl (enqueueFeature parallel_element) st).joblist =
        st.joblist ++ l.flatMap (expectedFeatureJobs parallel_element) := by
  induction l with
  | nil =>
    intro st h
    exact ⟨h, by simp⟩
  | cons f rest ih =>
    intro st h
    obtain ⟨h1, h2⟩ := enqueueFeature_spec parallel_element st f h
    obtain ⟨h3, h4⟩ := ih _ h1
    refine ⟨h3, ?_⟩
    rw [List.foldl_cons, h4, h2, List.flatMap_cons, List.append_assoc]

/-- C2: the partition loop turns a whole feature into exactly one job
under feature granularity or a 'serial' tag, otherwise one job per
plain scenario and one per expanded sub-scenario of an outline (so an
outline with N example rows yields N jobs, none aggregated), in
creation order; and the enqueued indices are exactly 0,1,...,len-1 in
creation order, so every enqueued index refers to the job at that
position of the job list. -/
theorem C2_partitioning (parallel_element : String) (features : List JobNode) :
    (partitionJobs parallel_element features).joblist =
      features.flatMap (expectedFeatureJobs parallel_element) ∧
    (partitionJobs parallel_element features).idxQueue =
      List.range (partitionJobs parallel_element features).joblist.length ∧
    (∀ f, "serial" ∈ f.tags → expectedFeatureJobs parallel_element f = [f]) ∧
    (∀ s, s.jtype ≠ "scenario" → expectedScenarioJobs s = s.scenarios) := by
  obtain ⟨⟨hq, hc⟩, hjobs⟩ :=
    foldl_enqueueFeature_spec parallel_element features ⟨[], [], 0, 0⟩ ⟨rfl, rfl⟩
  refine ⟨by simpa using hjobs, hq, ?_, ?_⟩
  · intro f hf
    simp [expectedFeatureJobs, hf]
  · intro s hs
    simp [expectedScenarioJobs, hs]

/-- Result of one `get_nowait()` call on the shared index queue as seen
by a worker: an index, the Queue.Empty exception, or any other
exception (transport, pickling, an interrupted manager, ...). -/
inductive DequeueOutcome where
  | item (idx : Nat)
  | emptyQueue
  | failure (msg : String)
deriving DecidableEq

/-- The dequeue discipline of `Runner.worker`:
`try: joblist_index = self.joblist_index_queue.get_nowait()
except Exception, e: break` — the loop continues (with the index) only
when `get_nowait` returns; *every* exception, Queue.Empty or any other
failure alike, takes the `break` and ends the worker. -/
def workerDequeue : DequeueOutcome → Option Nat
  | .item i => some i
  | .emptyQueue => none
  | .failure _ => none

/-- C3 evidence: the worker's dequeue loop treats an arbitrary non-empty
dequeue failure exactly like the queue-empty condition — both take the
same `break` — so queue-empty is not distinguished from other failures. -/
theorem C3_dequeue_conflates_failures :
    workerDequeue (DequeueOutcome.failure "IOError: broken pipe") = none ∧
    workerDequeue DequeueOutcome.emptyQueue = none ∧
    workerDequeue (DequeueOutcome.failure "IOError: broken pipe") =
      workerDequeue DequeueOutcome.emptyQueue ∧
    workerDequeue (DequeueOutcome.item 0) = some 0 := by
  decide

mutual

/-- The text `Runner.getskippedsteps` appends to the write buffer: for a
scenario, one line per step left in skipped status; for any other node,
the concatenation over its `scenarios`. -/
def getskippedsteps : JobNode → String
  | .mk jtype jname _ _ _ _ _ steps scens =>
    if jtype ≠ "scenario" then getskippedstepsList scens
    else String.join (steps.map (fun s =>
      if s.status = "skipped" then
        "Skipped because of error - Scenario:" ++ jname ++ "|" ++ "step:" ++ s.name ++ "\n"
      else ""))

/-- The list-comprehension recursion of `getskippedsteps`. -/
def getskippedstepsList : List JobNode → String
  | [] => ""
  | j :: rest => getskippedsteps j ++ getskippedstepsList rest

end

/-- The `@tag1 tag2 ...` line appended to the report header under the
plain format. -/
def tagsLine (tags : List String) : String :=
  "@" ++ String.join (tags.map (fun t => t ++ " "))

/-- Python `Runner.generatereport`: the empty string when the write
buffer holds nothing (`if not writebuf.pos: return ""`); otherwise the
header, the buffer contents (with the skipped-step lines appended first
when the job failed), a newline and the footer. -/
def generatereport (procNumber : Nat) (job : JobNode) (startTime endTime : String)
    (writebuf : String) (formatFirst : String) : String :=
  if writebuf.length = 0 then ""
  else
    let reportheader :=
      if job.jtype = "feature" then
        startTime ++ "|WORKER" ++ toString procNumber ++ " START|" ++
          "Feature:" ++ job.name ++ "|" ++ job.filename
      else
        startTime ++ "|WORKER" ++ toString procNumber ++ " START|" ++
          "Scenario:" ++ job.name ++ "|Feature:" ++ job.featureName ++ "|" ++ job.filename
    let reportfooter :=
      if job.jtype = "feature" then
        endTime ++ "|WORKER" ++ toString procNumber ++ " END|" ++
          "Feature:" ++ job.name ++ "|status:" ++ job.status ++ "|" ++
          job.filename ++ "|Duration:" ++ job.durationStr
      else
        endTime ++ "|WORKER" ++ toString procNumber ++ " END|" ++
          "Scenario:" ++ job.name ++ "|Feature:" ++ job.featureName ++ "|" ++
          "status:" ++ job.status ++ "|" ++ job.filename ++ "|Duration:" ++ job.durationStr
    let reportheader :=
      if formatFirst = "plain" ∧ job.tags.length ≠ 0 then
        reportheader ++ "\n" ++ tagsLine job.tags
      else reportheader
    let contents :=
      if job.status = "failed" then writebuf ++ getskippedsteps job else writebuf
    reportheader ++ contents ++ "\n" ++ reportfooter

/-- Per-status step tallies of a `results` dict. -/
structure StepTally where
  steps_passed : Nat
  steps_failed : Nat
  steps_skipped : Nat
  steps_undefined : Nat
deriving DecidableEq

/-- One step of the tally loop of `Runner.countstepstatus`. -/
def tallyStep (acc : StepTally) (s : StepInfo) : StepTally :=
  if s.status = "passed" then { acc with steps_passed := acc.steps_passed + 1 }
  else if s.status = "failed" then { acc with steps_failed := acc.steps_failed + 1 }
  else if s.status = "skipped" then { acc with steps_skipped := acc.steps_skipped + 1 }
  else { acc with steps_undefined := acc.steps_undefined + 1 }

mutual

/-- Python `Runner.countstepstatus`: recurse through non-scenario nodes,
tally the steps of scenario nodes. -/
def countstepstatus : JobNode → StepTally → StepTally
  | .mk jtype _ _ _ _ _ _ steps scens, acc =>
    if jtype ≠ "scenario" then countstepstatusList scens acc
    else steps.foldl tallyStep acc

/-- The list-comprehension recursion of `countstepstatus`. -/
def countstepstatusList : List JobNode → StepTally → StepTally
  | [], acc => acc
  | j :: rest, acc => countstepstatusList rest (countstepstatus j acc)

end

/-- Per-status scenario tallies of a feature job's `results` dict. -/
structure ScenTally where
  scenarios_passed : Nat
  scenarios_failed : Nat
  scenarios_skipped : Nat
deriving DecidableEq

/-- One step of the tally loop of `Runner.countscenariostatus`. -/
def tallyScenario (acc : ScenTally) (status : String) : ScenTally :=
  let a1 := if status = "passed" then { acc with scenarios_passed := acc.scenarios_passed + 1 }
            else acc
  let a2 := if status = "failed" then { a1 with scenarios_failed := a1.scenarios_failed + 1 }
            else a1
  if status = "skipped" then { a2 with scenarios_skipped := a2.scenarios_skipped + 1 } else a2

mutual

/-- Python `Runner.countscenariostatus`: recurse through non-scenario
nodes, tally the status of scenario nodes. -/
def countscenariostatus : JobNode → ScenTally → ScenTally
  | .mk jtype _ _ _ status _ _ _ scens, acc =>
    if jtype ≠ "scenario" then countscenariostatusList scens acc
    else tallyScenario acc status

/-- The list-comprehension recursion of `countscenariostatus`. -/
def countscenariostatusList : List JobNode → ScenTally → ScenTally
  | [], acc => acc
  | j :: rest, acc => countscenariostatusList rest (countscenariostatus j acc)

end

/-- The `results` dict a worker pushes onto the results queue: step
tallies, job kind, report text, status; the composite identity key
`filename + feature.name` only for scenario-kind jobs; the scenario
tallies only for feature jobs. -/
structure JobResult where
  steps_passed : Nat
  steps_failed : Nat
  steps_skipped : Nat
  steps_undefined : Nat
  jobtype : String
  reportinginfo : String
  status : String
  uniquekey : Option String
  scenarios_passed : Option Nat
  scenarios_failed : Option Nat
  scenarios_skipped : Option Nat
deriving DecidableEq

/-- Building the `results` dict of `Runner.worker` for one executed job
whose report text is `txt`. -/
def buildJobResult (job : JobNode) (txt : String) : JobResult :=
  let stt := countstepstatus job ⟨0, 0, 0, 0⟩
  if job.jtype ≠ "feature" then
    { steps_passed := stt.steps_passed, steps_failed := stt.steps_failed,
      steps_skipped := stt.steps_skipped, steps_undefined := stt.steps_undefined,
      jobtype := job.jtype, reportinginfo := txt, status := job.status,
      uniquekey := some (job.filename ++ job.featureName),
      scenarios_passed := none, scenarios_failed := none, scenarios_skipped := none }
  else
    let sct := countscenariostatus job ⟨0, 0, 0⟩
    { steps_passed := stt.steps_passed, steps_failed := stt.steps_failed,
      steps_skipped := stt.steps_skipped, steps_undefined := stt.steps_undefined,
      jobtype := job.jtype, reportinginfo := txt, status := job.status,
      uniquekey := none,
      scenarios_passed := some sct.scenarios_passed,
      scenarios_failed := some sct.scenarios_failed,
      scenarios_skipped := some sct.scenarios_skipped }

/-- The result-emission tail of one `Runner.worker` iteration: build the
report text; `if job_report_text:` push exactly one `results` dict onto
the results queue, otherwise push nothing. -/
def workerEmit (procNumber : Nat) (job : JobNode) (startTime endTime : String)
    (writebuf : String) (formatFirst : String) : List JobResult :=
  let txt := generatereport procNumber job startTime endTime writebuf formatFirst
  if txt = "" then [] else [buildJobResult job txt]

/-- C4: a worker pushes no JobResult at all for a job whose run produced
no buffered output (so nothing of it can reach the aggregated totals),
and exactly one JobResult — the built `results` dict — whenever any
buffered output exists. -/
theorem C4_dropped_results (procNumber : Nat) (job : JobNode)
    (startTime endTime writebuf formatFirst : String) :
    workerEmit procNumber job startTime endTime writebuf formatFirst =
      if writebuf = "" then []
      else [buildJobResult job
        (generatereport procNumber job startTime endTime writebuf formatFirst)] := by
  by_cases hb : writebuf = ""
  · subst hb
    simp [workerEmit, generatereport]
  · have hlen : writebuf.length ≠ 0 := by
      intro h0
      apply hb
      apply String.ext
      have : writebuf.data.length = 0 := h0
      exact List.length_eq_zero.mp this
    have htxt : generatereport procNumber job startTime endTime writebuf formatFirst ≠ "" := by
      intro h0
      have hlentxt := congrArg String.length h0
      rw [generatereport] at hlentxt
      simp only [hlen, if_false] at hlentxt
      simp [String.length_append, show ("\n" : String).length = 1 from rfl] at hlentxt
    simp [workerEmit, htxt, hb]

/-- The per-result step of the aggregation loop of `Runner.run_multiproc`
on the `combined_features_from_scenarios_results` dict: for a
scenario-kind result, first sight stores the status under the unique
key, every later sighting appends `'|' + status`. -/
def accumulateResult (m : Frame String) (r : JobResult) : Frame String :=
  if r.jobtype ≠ "feature" then
    match r.uniquekey with
    | some k =>
      match m.lookup k with
      | some s => m.setv k (s ++ "|" ++ r.status)
      | none => m.setv k r.status
    | none => m
  else m

/-- Draining the whole results queue into the combined dict. -/
def accumulateResults (results : List JobResult) : Frame String :=
  results.foldl accumulateResult []

/-- The statuses of the scenario-kind results carrying the given unique
key, in queue order. -/
def scenarioStatuses (results : List JobResult) (k : String) : List String :=
  results.filterMap (fun r =>
    if r.jobtype ≠ "feature" ∧ r.uniquekey = some k then some r.status else none)

/-- Folding further statuses onto an existing combined string with the
`'|'` separator. -/
def extendCombined (c : String) (l : List String) : String :=
  l.foldl (fun acc s => acc ++ "|" ++ s) c

/-- The combined status string built for a key out of its status
sequence: first status plain, the rest '|'-separated. -/
def combineStatuses : List String → String
  | [] => ""
  | s :: rest => extendCombined s rest

/-- The feature-status reconstruction of `Runner.run_multiproc`:
`'failed' in combined`, elif `'passed' in combined`, else skipped — with
Python's substring containment. -/
def deriveFeatureStatus (combined : String) : String :=
  if "failed".data <:+: combined.data then "failed"
  else if "passed".data <:+: combined.data then "passed"
  else "skipped"

/-- Specification-side priority rule failed > passed > skipped over the
constituent scenario statuses. -/
def priorityStatus (l : List String) : String :=
  if "failed" ∈ l then "failed" else if "passed" ∈ l then "passed" else "skipped"

/-- Join of character lists with a single separator character. -/
def joinSep (c : Char) : List (List Char) → List Char
  | [] => []
  | [x] => x
  | x :: y :: rest => x ++ c :: joinSep c (y :: rest)

theorem joinSep_glue (c : Char) (a b : List Char) :
    ∀ L, joinSep c ((a ++ c :: b) :: L) = a ++ c :: joinSep c (b :: L) := by
  intro L
  cases L with
  | nil => rfl
  | cons z L' => simp [joinSep, List.append_assoc]

theorem prefix_of_eq_append_sep {c : Char} :
    ∀ (w : List Char), c ∉ w → ∀ (t u v : List Char), w ++ t = u ++ c :: v → w <+: u := by
  intro w
  induction w with
  | nil =>
    intro _ t u v _
    exact ⟨u, rfl⟩
  | cons a w' ih =>
    intro hc t u v h
    cases u with
    | nil =>
      simp only [List.nil_append, List.cons_append, List.cons.injEq] at h
      refine absurd ?_ hc
      rw [← h.1]
      exact List.mem_cons_self a w'
    | cons b u' =>
      simp only [List.cons_append, List.cons.injEq] at h
      obtain ⟨hab, h'⟩ := h
      have hc' : c ∉ w' := fun hx => hc (List.mem_cons_of_mem a hx)
      obtain ⟨t₂, ht₂⟩ := ih hc' t u' v h'
      exact ⟨t₂, by rw [List.cons_append, ht₂, hab]⟩

theorem around_sep {w : List Char} {c : Char} (hc : c ∉ w) :
    ∀ (s t u v : List Char), s ++ w ++ t = u ++ c :: v → w <:+: u ∨ w <:+: v := by
  intro s
  induction s with
  | nil =>
    intro t u v h
    simp only [List.nil_append] at h
    left
    obtain ⟨t₂, ht₂⟩ := prefix_of_eq_append_sep w hc t u v h
    exact ⟨[], t₂, by simpa using ht₂⟩
  | cons a s' ih =>
    intro t u v h
    cases u with
    | nil =>
      simp only [List.cons_append, List.nil_append, List.cons.injEq] at h
      right
      exact ⟨s', t, h.2⟩
    | cons b u' =>
      simp only [List.cons_append, List.cons.injEq] at h
      obtain ⟨hab, h'⟩ := h
      rcases ih t u' v h' with hl | hr
      · left
        obtain ⟨s₂, t₂, hst⟩ := hl
        exact ⟨b :: s₂, t₂, by simp [List.cons_append, hst]⟩
      · right
        exact hr

theorem sub_joinSep_iff {w : List Char} {c : Char} (hc : c ∉ w) (hw : w ≠ []) :
    ∀ l : List (List Char), (w <:+: joinSep c l) ↔ ∃ x ∈ l, w <:+: x := by
  intro l
  induction l with
  | nil =>
    constructor
    · rintro ⟨s, t, hst⟩
      exfalso
      obtain ⟨hsw, -⟩ := List.append_eq_nil.mp hst
      obtain ⟨-, hw0⟩ := List.append_eq_nil.mp hsw
      exact hw hw0
    · rintro ⟨x, hx, -⟩
      exact absurd hx (List.not_mem_nil x)
  | cons x rest ih =>
    cases rest with
    | nil =>
      simp only [joinSep]
      constructor
      · intro h
        exact ⟨x, by simp, h⟩
      · rintro ⟨y, hy, hwy⟩
        simp only [List.mem_singleton] at hy
        rw [← hy]
        exact hwy
    | cons y r' =>
      have hJ : joinSep c (x :: y :: r') = x ++ c :: joinSep c (y :: r') := rfl
      constructor
      · intro h
        rw [hJ] at h
        obtain ⟨s, t, hst⟩ := h
        rcases around_sep hc s t x (joinSep c (y :: r')) hst with h1 | h2
        · exact ⟨x, by simp, h1⟩
        · obtain ⟨z, hz, hwz⟩ := ih.mp h2
          exact ⟨z, by simp [hz], hwz⟩
      · rintro ⟨z, hz, hwz⟩
        rw [hJ]
        rcases List.mem_cons.mp hz with hzx | hzr
        · subst hzx
          obtain ⟨s, t, hst⟩ := hwz
          exact ⟨s, t ++ c :: joinSep c (y :: r'), by rw [← hst]; simp⟩
        · obtain ⟨s, t, hst⟩ := ih.mpr ⟨z, hzr, hwz⟩
          exact ⟨x ++ c :: s, t, by rw [← hst]; simp⟩

theorem extendCombined_data (l : List String) :
    ∀ c : String, (extendCombined c l).data = joinSep '|' (c.data :: l.map String.data) := by
  induction l with
  | nil =>
    intro c
    rfl
  | cons s rest ih =>
    intro c
    have h1 : extendCombined c (s :: rest) = extendCombined (c ++ "|" ++ s) rest := rfl
    rw [h1, ih]
    have h2 : (c ++ "|" ++ s).data = c.data ++ '|' :: s.data := by
      rw [String.data_append, String.data_append]
      simp [show ("|" : String).data = ['|'] from rfl]
    rw [h2, List.map_cons, joinSep_glue]
    simp [joinSep]

theorem combineStatuses_data (s : String) (rest : List String) :
    (combineStatuses (s :: rest)).data = joinSep '|' ((s :: rest).map String.data) := by
  rw [show combineStatuses (s :: rest) = extendCombined s rest from rfl, extendCombined_data]
  rfl

/-- The four statuses an executed artifact can carry per the data model. -/
abbrev GoodStatus (s : String) : Prop :=
  s = "passed" ∨ s = "failed" ∨ s = "skipped" ∨ s = "undefined"

theorem failed_sub_iff {s : String} (h : GoodStatus s) :
    ("failed".data <:+: s.data) ↔ s = "failed" := by
  rcases h with h | h | h | h <;> subst h <;> decide

theorem passed_sub_iff {s : String} (h : GoodStatus s) :
    ("passed".data <:+: s.data) ↔ s = "passed" := by
  rcases h with h | h | h | h <;> subst h <;> decide

/-- Evolution of one key's combined-dict entry over a result list. -/
def extendOpt : Option String → List String → Option String
  | some c, l => some (extendCombined c l)
  | none, [] => none
  | none, s :: l => some (extendCombined s l)

theorem foldl_accumulate (results : List JobResult) :
    ∀ (m : Frame String) (k : String),
      (results.foldl accumulateResult m).lookup k =
        extendOpt (m.lookup k) (scenarioStatuses results k) := by
  induction results with
  | nil =>
    intro m k
    cases h : m.lookup k <;> simp [scenarioStatuses, extendOpt, h, extendCombined]
  | cons r rest ih =>
    intro m k
    rw [List.foldl_cons, ih]
    by_cases hrel : r.jobtype ≠ "feature" ∧ r.uniquekey = some k
    · obtain ⟨hjt, hk⟩ := hrel
      have hss : scenarioStatuses (r :: rest) k = r.status :: scenarioStatuses rest k := by
        simp [scenarioStatuses, List.filterMap_cons, hjt, hk]
      rw [hss]
      cases hm : m.lookup k with
      | some c =>
        have hacc : accumulateResult m r = m.setv k (c ++ "|" ++ r.status) := by
          simp [accumulateResult, hjt, hk, hm]
        rw [hacc, Frame.lookup_setv_self]
        rfl
      | none =>
        have hacc : accumulateResult m r = m.setv k r.status := by
          simp [accumulateResult, hjt, hk, hm]
        rw [hacc, Frame.lookup_setv_self]
        rfl
    · have hss : scenarioStatuses (r :: rest) k = scenarioStatuses rest k := by
        simp [scenarioStatuses, List.filterMap_cons, hrel]
      rw [hss]
      have hlk : (accumulateResult m r).lookup k = m.lookup k := by
        unfold accumulateResult
        by_cases hjt : r.jobtype ≠ "feature"
        · cases hku : r.uniquekey with
          | none => simp [hjt, hku]
          | some k' =>
            have hkk : k' ≠ k := by
              intro he
              exact hrel ⟨hjt, by rw [hku, he]⟩
            cases hmk : m.lookup k' <;>
              simp [hjt, hku, hmk, Frame.lookup_setv_ne _ _ hkk]
        · simp [hjt]
      rw [hlk]

/-- C1: the combined status string a key accumulates from its
scenario-job results is exactly the '|'-joined status sequence, and the
substring-based feature-status reconstruction over it realizes the
priority failed > passed > skipped over those statuses: any failed
scenario makes the feature failed, otherwise any passed scenario makes
it passed, otherwise it is skipped. -/
theorem C1_feature_status_reconstruction (results : List JobResult) (k combined : String)
    (hgood : ∀ r ∈ results, GoodStatus r.status)
    (hacc : (accumulateResults results).lookup k = some combined) :
    combined = combineStatuses (scenarioStatuses results k) ∧
    deriveFeatureStatus combined = priorityStatus (scenarioStatuses results k) := by
  have hfold := foldl_accumulate results [] k
  rw [show accumulateResults results = results.foldl accumulateResult [] from rfl, hfold] at hacc
  cases hl : scenarioStatuses results k with
  | nil =>
    rw [hl] at hacc
    simp [extendOpt, Frame.lookup] at hacc
  | cons s rest =>
    rw [hl] at hacc
    simp only [extendOpt, Frame.lookup, Option.some.injEq] at hacc
    have hcomb : combined = combineStatuses (s :: rest) := by
      rw [← hacc]
      rfl
    refine ⟨hcomb, ?_⟩
    have hgood' : ∀ x ∈ s :: rest, GoodStatus x := by
      intro x hx
      rw [← hl] at hx
      obtain ⟨r, hr, hrx⟩ := List.mem_filterMap.mp hx
      by_cases hcond : r.jobtype ≠ "feature" ∧ r.uniquekey = some k
      · rw [if_pos hcond] at hrx
        injection hrx with hrx
        rw [← hrx]
        exact hgood r hr
      · rw [if_neg hcond] at hrx
        exact Option.noConfusion hrx
    have hsub1 : ("failed".data <:+: combined.data) ↔ "failed" ∈ s :: rest := by
      rw [hcomb, combineStatuses_data,
        sub_joinSep_iff (by decide) (by decide) ((s :: rest).map String.data)]
      constructor
      · rintro ⟨x, hx, hsx⟩
        obtain ⟨y, hy, rfl⟩ := List.mem_map.mp hx
        have hy2 := (failed_sub_iff (hgood' y hy)).mp hsx
        exact hy2 ▸ hy
      · intro hmem
        exact ⟨"failed".data, List.mem_map_of_mem String.data hmem, by decide⟩
    have hsub2 : ("passed".data <:+: combined.data) ↔ "passed" ∈ s :: rest := by
      rw [hcomb, combineStatuses_data,
        sub_joinSep_iff (by decide) (by decide) ((s :: rest).map String.data)]
      constructor
      · rintro ⟨x, hx, hsx⟩
        obtain ⟨y, hy, rfl⟩ := List.mem_map.mp hx
        have hy2 := (passed_sub_iff (hgood' y hy)).mp hsx
        exact hy2 ▸ hy
      · intro hmem
        exact ⟨"passed".data, List.mem_map_of_mem String.data hmem, by decide⟩
    simp only [deriveFeatureStatus, priorityStatus]
    by_cases hf : "failed" ∈ s :: rest
    · rw [if_pos (hsub1.mpr hf), if_pos hf]
    · rw [if_neg (fun hx => hf (hsub1.mp hx)), if_neg hf]
      by_cases hp : "passed" ∈ s :: rest
      · rw [if_pos (hsub2.mpr hp), if_pos hp]
      · rw [if_neg (fun hx => hp (hsub2.mp hx)), if_neg hp]

/-- Example results queue: three scenario-job results of one feature. -/
def exampleResults : List JobResult :=
  [{ steps_passed := 1, steps_failed := 0, steps_skipped := 0, steps_undefined := 0,
     jobtype := "scenario", reportinginfo := "r1", status := "passed",
     uniquekey := some "one.featureA", scenarios_passed := none, scenarios_failed := none,
     scenarios_skipped := none },
   { steps_passed := 0, steps_failed := 1, steps_skipped := 0, steps_undefined := 0,
     jobtype := "scenario", reportinginfo := "r2", status := "failed",
     uniquekey := some "one.featureA", scenarios_passed := none, scenarios_failed := none,
     scenarios_skipped := none },
   { steps_passed := 1, steps_failed := 0, steps_skipped := 0, steps_undefined := 0,
     jobtype := "scenario", reportinginfo := "r3", status := "passed",
     uniquekey := some "one.featureA", scenarios_passed := none, scenarios_failed := none,
     scenarios_skipped := none }]

theorem C1_feature_status_reconstruction_witness :
    (∀ r ∈ exampleResults, GoodStatus r.status) ∧
    (accumulateResults exampleResults).lookup "one.featureA" = some "passed|failed|passed" ∧
    ("passed|failed|passed" = combineStatuses (scenarioStatuses exampleResults "one.featureA") ∧
     deriveFeatureStatus "passed|failed|passed" =
       priorityStatus (scenarioStatuses exampleResults "one.featureA")) :=
  ⟨by decide, by decide, C1_feature_status_reconstruction exampleResults "one.featureA"
    "passed|failed|passed" (by decide) (by decide)⟩
